import Mathlib

/-
Verification of the response-normalization core of phoenix-lib.

Shallow embedding of:
  - src/phoenix_lib/utils/text.py   (strip_markdown_code_fences)
  - src/phoenix_lib/llm/utils.py    (normalize_result and its inner _extract_text)

Strings are modelled as `List Char`.  Python values reaching the extractor are
modelled by the inductive type `Value` below.  Python exceptions are modelled
with `Except PyErr`.
-/

/-
### Fence stripper (src/phoenix_lib/utils/text.py)

Python reference:

    def strip_markdown_code_fences(text: str) -> str:
        if not text or not isinstance(text, str):
            return text
        stripped = text.strip()
        if not stripped.startswith("```"):
            return text
        pattern = r"^```[a-zA-Z0-9_-]*\n(.+)\n?```$"
        match = re.match(pattern, stripped, re.DOTALL)
        if match:
            return match.group(1).strip()
        pattern_no_lang = r"^```\n(.+)\n?```$"
        match_no_lang = re.match(pattern_no_lang, stripped, re.DOTALL)
        if match_no_lang:
            return match_no_lang.group(1).strip()
        return text
-/

/-- Whitespace characters removed by Python `str.strip()` (ASCII fragment:
space, tab, newline, carriage return, vertical tab, form feed; characters
outside ASCII are out of the model's scope). -/
def isPyWhitespace (c : Char) : Bool :=
  c = ' ' || c = '\t' || c = '\n' || c = '\r' || c = Char.ofNat 11 || c = Char.ofNat 12

/-- Python `str.strip()`: remove leading and trailing whitespace. -/
def pyStrip (cs : List Char) : List Char :=
  ((cs.dropWhile isPyWhitespace).reverse.dropWhile isPyWhitespace).reverse

/-- Characters matched by the language-tag class `[a-zA-Z0-9_-]` of the fence
pattern (the regex class is ASCII-only for `str` patterns). -/
def isLangChar (c : Char) : Bool :=
  c.isAlpha || c.isDigit || c = '_' || c = '-'

/-- The triple-backtick fence marker. -/
def fence3 : List Char := ['`', '`', '`']

/-- Semantics of the common suffix `(.+)\n?```$` of both fence patterns under
`re.DOTALL`, applied to the text `tail` that follows the opening marker and its
newline, for a subject with no trailing newline (`$` handling is done by
`reDollarDrop` below).  The greedy `(.+)` makes the closing ` ``` ` the last
three characters of the subject and captures everything before them (an
optional newline right before the closing marker is therefore captured too);
the group needs at least one character. -/
def matchFenceTail (tail : List Char) : Option (List Char) :=
  if 4 ≤ tail.length ∧ tail.drop (tail.length - 3) = fence3 then
    some (tail.take (tail.length - 3))
  else
    none

/-- Python `$` (without `re.MULTILINE`) matches at the end of the subject or
just before one trailing newline.  A pattern ending in ` ```$ ` hence can only
close on `cs` with a trailing newline removed, when there is one. -/
def reDollarDrop (cs : List Char) : List Char :=
  if cs.getLast? = some '\n' then cs.dropLast else cs

/-- Semantics of `re.match(r"^```[a-zA-Z0-9_-]*\n(.+)\n?```$", cs, re.DOTALL)`,
returning `group(1)`.  The greedy language-tag class consumes the maximal run
of tag characters after the opening marker; since no tag character is a
newline, backtracking inside the run can never satisfy the following `\n`, so
the match requires a newline right after the maximal run. -/
def matchFenceLang (cs : List Char) : Option (List Char) :=
  if fence3.isPrefixOf (reDollarDrop cs) ∧
      (((reDollarDrop cs).drop 3).dropWhile isLangChar).head? = some '\n' then
    matchFenceTail (((reDollarDrop cs).drop 3).dropWhile isLangChar).tail
  else none

/-- Semantics of `re.match(r"^```\n(.+)\n?```$", cs, re.DOTALL)`, returning
`group(1)`. -/
def matchFenceNoLang (cs : List Char) : Option (List Char) :=
  if (fence3 ++ ['\n']).isPrefixOf (reDollarDrop cs) then
    matchFenceTail ((reDollarDrop cs).drop 4)
  else none

/-- Embedding of `strip_markdown_code_fences` (src/phoenix_lib/utils/text.py,
lines 6-36).  The `isinstance(text, str)` guard is vacuous here because the
argument is typed; `not text` is the empty-string test. -/
def strip_markdown_code_fences (text : List Char) : List Char :=
  if text.isEmpty then text
  else
    let stripped := pyStrip text
    if fence3.isPrefixOf stripped then
      match matchFenceLang stripped with
      | some body => pyStrip body
      | none =>
        match matchFenceNoLang stripped with
        | some body => pyStrip body
        | none => text
    else text

/-
### Value model for `normalize_result` (src/phoenix_lib/llm/utils.py)

Python exceptions are classified as much as the code distinguishes them:
`AttributeError` (suppressed by `hasattr`), `TypeError` (caught by the
`model_dump` retry and raised by iterating a non-iterable), anything else.
-/

/-- Classification of a raised Python exception. -/
inductive PyErr where
  | attrError
  | typeError
  | other
deriving DecidableEq

mutual
/-- A Python value reaching the normalizer: `None`, `str`, `int`, `bool`,
`dict` (string keys, insertion order), `list`/`tuple` (merged: the code always
tests `isinstance(value, (list, tuple))`), or an arbitrary object.  An object
carries the outcome of each attribute access (a deterministic Python property
either returns a value or raises), the behaviour of its `model_dump` method if
any, and the outcome of `repr` on it.  `float` values are outside the model. -/
inductive Value where
  | none
  | str (s : List Char)
  | int (n : Int)
  | bool (b : Bool)
  | dict (entries : EntryList)
  | vlist (elems : ValueList)
  | obj (attrs : AttrList) (dump : DumpSpec) (rep : Except PyErr (List Char))

/-- A list of Python values. -/
inductive ValueList where
  | nil
  | cons (v : Value) (rest : ValueList)

/-- Ordered key/value entries of a Python dict (keys are unique in a real
dict; lookup takes the first binding). -/
inductive EntryList where
  | nil
  | cons (k : List Char) (v : Value) (rest : EntryList)

/-- Attribute table of an object: for each attribute name, the outcome of
`getattr`. -/
inductive AttrList where
  | nil
  | cons (name : String) (outcome : AttrRes) (rest : AttrList)

/-- Outcome of an attribute access: a value, or a raised exception. -/
inductive AttrRes where
  | ok (v : Value)
  | err (e : PyErr)

/-- Behaviour of `value.model_dump(...)`: the method may be absent, the first
call (`mode="json", exclude_none=True, warnings=False`) may return a value or
raise; on a `TypeError` the code retries without `warnings` and that second
call may in turn return a value or raise. -/
inductive DumpSpec where
  | noAttr
  | ok (v : Value)
  | typeErrThen (r : AttrRes)
  | otherErr
end

/-- Result of probing one attribute in `_extract_text`: absent (including a
deterministic `AttributeError`, which `hasattr` converts to `False`), a raised
non-`AttributeError` exception escaping from `hasattr`, or present with the
text extracted from it. -/
inductive FieldProbe where
  | absent
  | raised (e : PyErr)
  | found (r : Except PyErr (List Char))

instance : DecidableEq (Except PyErr (List Char)) := fun a b =>
  match a, b with
  | .ok x, .ok y => if h : x = y then .isTrue (by rw [h]) else .isFalse (by simp [h])
  | .error x, .error y => if h : x = y then .isTrue (by rw [h]) else .isFalse (by simp [h])
  | .ok _, .error _ => .isFalse (by simp)
  | .error _, .ok _ => .isFalse (by simp)

/-- The dict key "content". -/
def kContent : List Char := ['c', 'o', 'n', 't', 'e', 'n', 't']

/-- The dict key "choices". -/
def kChoices : List Char := ['c', 'h', 'o', 'i', 'c', 'e', 's']

/-- The dict key "message". -/
def kMessage : List Char := ['m', 'e', 's', 's', 'a', 'g', 'e']

/-- The dict key "text". -/
def kText : List Char := ['t', 'e', 'x', 't']

/-- Python `"\n".join(t for t in texts if t)`: empty parts are dropped, the
rest are joined with a newline. -/
def joinNonEmpty (parts : List (List Char)) : List Char :=
  List.intercalate ['\n'] (parts.filter (fun p => ¬ p.isEmpty))

/-- Lowercase hex digit, as produced by `json.dumps` control-character
escapes. -/
def hexDigitChar (n : Nat) : Char :=
  if n < 10 then Char.ofNat (48 + n) else Char.ofNat (87 + n)

/-- Escaping of one character inside a JSON string as done by `json.dumps`
with `ensure_ascii=False`. -/
def jsonEscapeChar (c : Char) : List Char :=
  if c = '"' then ['\\', '"']
  else if c = '\\' then ['\\', '\\']
  else if c = '\n' then ['\\', 'n']
  else if c = '\t' then ['\\', 't']
  else if c = '\r' then ['\\', 'r']
  else if c = Char.ofNat 8 then ['\\', 'b']
  else if c = Char.ofNat 12 then ['\\', 'f']
  else if c.toNat < 32 then
    ['\\', 'u', '0', '0', hexDigitChar (c.toNat / 16), hexDigitChar (c.toNat % 16)]
  else [c]

/-- A JSON string literal for `s`. -/
def jsonQuote (s : List Char) : List Char :=
  '"' :: s.foldr (fun c acc => jsonEscapeChar c ++ acc) ['"']

/-- Python `json.dumps(normalized, ensure_ascii=False)` on a dict mapping
strings to strings, with the default separators `", "` and `": "`, in
insertion order. -/
def jsonDumps (pairs : List (List Char × List Char)) : List Char :=
  Char.ofNat 123 ::
    (List.intercalate [',', ' ']
      (pairs.map (fun kv => jsonQuote kv.1 ++ ':' :: ' ' :: jsonQuote kv.2)))
    ++ [Char.ofNat 125]

mutual
/-- Embedding of the inner `_extract_text` (src/phoenix_lib/llm/utils.py,
lines 18-58).  Branches in source order: `None`, `str`, `int`/`float`/`bool`,
`dict` (a `content` key delegates, otherwise every value is extracted and the
result serialized with `json.dumps`), `list`/`tuple` (join non-empty parts
with a newline), then attribute probes `content`, `text` (each probe's
`hasattr` re-raises a non-`AttributeError`; a found field is extracted inside
`try`, degrading to "" on any error), then `model_dump` (a `TypeError` from
the first call triggers an unguarded retry; other errors fall through), and
finally `repr` (degrading to "" on error). -/
def extract_text : Value → Except PyErr (List Char)
  | .none => .ok []
  | .str s => .ok s
  | .int n => .ok (toString n).data
  | .bool b => .ok (if b then "True".data else "False".data)
  | .dict entries =>
    match contentStep entries with
    | some r => r
    | Option.none =>
      match extractEntries entries with
      | .ok pairs => .ok (jsonDumps pairs)
      | .error e => .error e
  | .vlist elems =>
    match extractElems elems with
    | .ok parts => .ok (joinNonEmpty parts)
    | .error e => .error e
  | .obj attrs dump rep =>
    match objTryField attrs "content" with
    | .raised e => .error e
    | .found (.ok s) => .ok s
    | .found (.error _) => .ok []
    | .absent =>
      match objTryField attrs "text" with
      | .raised e => .error e
      | .found (.ok s) => .ok s
      | .found (.error _) => .ok []
      | .absent =>
        match dump with
        | .noAttr => (match rep with | .ok s => .ok s | .error _ => .ok [])
        | .ok Value.none => (match rep with | .ok s => .ok s | .error _ => .ok [])
        | .ok v => extract_text v
        | .typeErrThen (.ok Value.none) => (match rep with | .ok s => .ok s | .error _ => .ok [])
        | .typeErrThen (.ok v) => extract_text v
        | .typeErrThen (.err e) => .error e
        | .otherErr => (match rep with | .ok s => .ok s | .error _ => .ok [])

/-- The `if "content" in value: return _extract_text(value["content"])` step
of the dict branch: find the first binding of "content" and extract it (the
recursive call is unguarded, its exceptions propagate). -/
def contentStep : EntryList → Option (Except PyErr (List Char))
  | .nil => Option.none
  | .cons k v rest =>
    if k = kContent then some (extract_text v) else contentStep rest

/-- The generic-mapping branch: `{str(k): _extract_text(v) for k, v in
value.items()}` in insertion order; the first exception propagates. -/
def extractEntries : EntryList → Except PyErr (List (List Char × List Char))
  | .nil => .ok []
  | .cons k v rest =>
    match extract_text v with
    | .error e => .error e
    | .ok s =>
      match extractEntries rest with
      | .error e => .error e
      | .ok tail => .ok ((k, s) :: tail)

/-- The sequence branch: `[_extract_text(v) for v in value]`; the first
exception propagates. -/
def extractElems : ValueList → Except PyErr (List (List Char))
  | .nil => .ok []
  | .cons v rest =>
    match extract_text v with
    | .error e => .error e
    | .ok s =>
      match extractElems rest with
      | .error e => .error e
      | .ok tail => .ok (s :: tail)

/-- One `hasattr(value, name)` probe of `_extract_text` combined with the
guarded extraction of the found attribute.  `hasattr` suppresses only
`AttributeError` and re-raises anything else (Python semantics); when the
attribute exists its value is extracted, and that result is kept as-is for
the caller's `try`/`except`. -/
def objTryField : AttrList → String → FieldProbe
  | .nil, _ => .absent
  | .cons n o rest, name =>
    if n = name then
      match o with
      | .ok v => .found (extract_text v)
      | .err .attrError => .absent
      | .err e => .raised e
    else objTryField rest name
end

/-- First binding of an attribute name, as `getattr` sees it. -/
def lookupAttr : AttrList → String → Option AttrRes
  | .nil, _ => Option.none
  | .cons n o rest, name =>
    if n = name then some o else lookupAttr rest name

/-- First binding of a dict key (`key in d` / `d[key]`). -/
def lookupVal : EntryList → List Char → Option Value
  | .nil, _ => Option.none
  | .cons k v rest, key =>
    if k = key then some v else lookupVal rest key

/-- Remove every binding of a dict key. -/
def eraseKey (key : List Char) : EntryList → EntryList
  | .nil => .nil
  | .cons k v rest =>
    if k = key then eraseKey key rest else .cons k v (eraseKey key rest)

/-- Python `for x in value` as used by the `generations` loop: lists/tuples
yield their elements, strings yield their characters as one-character strings,
dicts yield their keys; `None`, numbers, booleans and the modelled objects are
not iterable and raise a `TypeError`. -/
def strToValueList : List Char → ValueList
  | [] => .nil
  | c :: cs => .cons (.str [c]) (strToValueList cs)

/-- Keys of a dict as an iteration sequence. -/
def keysToValueList : EntryList → ValueList
  | .nil => .nil
  | .cons k _ rest => .cons (.str k) (keysToValueList rest)

/-- Iteration of a Python value (see `strToValueList`). -/
def iterVal : Value → Except PyErr ValueList
  | .vlist l => .ok l
  | .str s => .ok (strToValueList s)
  | .dict entries => .ok (keysToValueList entries)
  | _ => .error .typeError

/-- Per-choice extraction of the attribute-based `choices` branch
(src/phoenix_lib/llm/utils.py, lines 73-79): prefer the `message` attribute,
else the `text` attribute, else extract the choice itself.  Runs inside the
branch's `try`, so raised exceptions are reported to the caller. -/
def choiceExtractAttr (c : Value) : Except PyErr (List Char) :=
  match c with
  | .obj attrs dump rep =>
    match lookupAttr attrs "message" with
    | some (.ok m) => extract_text m
    | some (.err .attrError) | Option.none =>
      (match lookupAttr attrs "text" with
       | some (.ok t) => extract_text t
       | some (.err .attrError) | Option.none => extract_text (.obj attrs dump rep)
       | some (.err e) => .error e)
    | some (.err e) => .error e
  | _ => extract_text c

/-- The loop over an attribute-based choice list. -/
def extractChoicesList : ValueList → Except PyErr (List (List Char))
  | .nil => .ok []
  | .cons v rest =>
    match choiceExtractAttr v with
    | .error e => .error e
    | .ok s =>
      match extractChoicesList rest with
      | .error e => .error e
      | .ok tail => .ok (s :: tail)

/-- Body of the `try` in the attribute-based `choices` branch (lines 70-82):
a list/tuple of choices is mapped with `choiceExtractAttr` and joined,
anything else is extracted directly. -/
def objChoicesTry (choices : Value) : Except PyErr (List Char) :=
  match choices with
  | .vlist cs =>
    match extractChoicesList cs with
    | .ok texts => .ok (joinNonEmpty texts)
    | .error e => .error e
  | _ => extract_text choices

/-- Per-item extraction of the dict-based `choices` branch (lines 88-99):
a dict item prefers its `message` key, then its `text` key, else is extracted
itself; a non-dict item prefers its `message` attribute (this `hasattr` is not
inside any `try`, so a raised exception propagates), else is extracted
itself. -/
def dictChoiceItem (item : Value) : Except PyErr (List Char) :=
  match item with
  | .dict d =>
    (match lookupVal d kMessage with
     | some mv => extract_text mv
     | Option.none =>
       match lookupVal d kText with
       | some tv => extract_text tv
       | Option.none => extract_text (.dict d))
  | .obj attrs dump rep =>
    (match lookupAttr attrs "message" with
     | some (.ok m) => extract_text m
     | some (.err .attrError) | Option.none => extract_text (.obj attrs dump rep)
     | some (.err e) => .error e)
  | _ => extract_text item

/-- The loop over a dict-based choice list. -/
def dictChoicesList : ValueList → Except PyErr (List (List Char))
  | .nil => .ok []
  | .cons v rest =>
    match dictChoiceItem v with
    | .error e => .error e
    | .ok s =>
      match dictChoicesList rest with
      | .error e => .error e
      | .ok tail => .ok (s :: tail)

/-- Per-element extraction of the `generations` branch (lines 112-124):
prefer the `text` attribute, else the `content` attribute, else extract the
element itself.  Runs inside the branch's `try`. -/
def genElem (e : Value) : Except PyErr (List Char) :=
  match e with
  | .obj attrs dump rep =>
    (match lookupAttr attrs "text" with
     | some (.ok t) => extract_text t
     | some (.err .attrError) | Option.none =>
       (match lookupAttr attrs "content" with
        | some (.ok cv) => extract_text cv
        | some (.err .attrError) | Option.none => extract_text (.obj attrs dump rep)
        | some (.err e2) => .error e2)
     | some (.err e2) => .error e2)
  | _ => extract_text e

/-- Inner loop of the `generations` branch over a nested list. -/
def genInner : ValueList → Except PyErr (List (List Char))
  | .nil => .ok []
  | .cons v rest =>
    match genElem v with
    | .error e => .error e
    | .ok s =>
      match genInner rest with
      | .error e => .error e
      | .ok tail => .ok (s :: tail)

/-- Outer loop of the `generations` branch: one level of nested lists/batches
is flattened, every other element contributes one part. -/
def genOuter : ValueList → Except PyErr (List (List Char))
  | .nil => .ok []
  | .cons g rest =>
    match (match g with
           | .vlist es => genInner es
           | _ =>
             match genElem g with
             | .ok t => .ok [t]
             | .error e => .error e) with
    | .error e => .error e
    | .ok ts =>
      match genOuter rest with
      | .error e => .error e
      | .ok more => .ok (ts ++ more)

/-- Body of the `try` in the `generations` branch (lines 107-125). -/
def genTry (gens : Value) : Except PyErr (List Char) :=
  match iterVal gens with
  | .error e => .error e
  | .ok items =>
    match genOuter items with
    | .error e => .error e
    | .ok texts => .ok (joinNonEmpty texts)

/-- The dispatch of `normalize_result` before the final fence stripping
(src/phoenix_lib/llm/utils.py, lines 60-129): `None`, plain `str`, then
attribute probes `content` (extraction unguarded), `choices` (the attribute
value is taken outside the `try`; the `try` covers the per-choice loop and
falls back to `_extract_text(result)`, itself unguarded), then `isinstance
dict` (the `choices`-with-sequence, `message`, generic cases; nothing here is
guarded), then `generations` (the `try` covers iteration and the loop and
degrades to the empty string), else `_extract_text(result)`.  Each `hasattr`
re-raises a non-`AttributeError` from the probed attribute. -/
def normalizeCore : Value → Except PyErr (List Char)
  | .none => .ok []
  | .str s => .ok s
  | .dict entries =>
    (match lookupVal entries kChoices with
     | some (.vlist items) =>
       (match dictChoicesList items with
        | .ok texts => .ok (joinNonEmpty texts)
        | .error e => .error e)
     | some _ | Option.none =>
       match lookupVal entries kMessage with
       | some mv => extract_text mv
       | Option.none => extract_text (.dict entries))
  | .obj attrs dump rep =>
    (match lookupAttr attrs "content" with
     | some (.ok v) => extract_text v
     | some (.err .attrError) | Option.none =>
       (match lookupAttr attrs "choices" with
        | some (.ok choices) =>
          (match objChoicesTry choices with
           | .ok out => .ok out
           | .error _ => extract_text (.obj attrs dump rep))
        | some (.err .attrError) | Option.none =>
          (match lookupAttr attrs "generations" with
           | some (.ok gens) =>
             (match genTry gens with
              | .ok out => .ok out
              | .error _ => .ok [])
           | some (.err .attrError) | Option.none => extract_text (.obj attrs dump rep)
           | some (.err e) => .error e)
        | some (.err e) => .error e)
     | some (.err e) => .error e)
  | v => extract_text v

/-- Embedding of `normalize_result` (src/phoenix_lib/llm/utils.py, lines
9-134): the dispatch above followed by exactly one application of
`strip_markdown_code_fences` to the computed text; an exception raised by the
dispatch propagates before the stripping is reached. -/
def normalize_result (result : Value) : Except PyErr (List Char) :=
  match normalizeCore result with
  | .ok output => .ok (strip_markdown_code_fences output)
  | .error e => .error e

/-
### Helper lemmas about the fence stripper
-/

/-- Dropping a satisfied run never lengthens a list. -/
theorem length_dropWhile_le {α : Type} (p : α → Bool) (l : List α) :
    (l.dropWhile p).length ≤ l.length := by
  induction l with
  | nil => simp
  | cons a l ih =>
    rw [List.dropWhile_cons]
    by_cases h : p a = true
    · simp only [h, if_true]
      exact Nat.le_trans ih (Nat.le_succ _)
    · simp [h]

/-- Python stripping never lengthens a string. -/
theorem pyStrip_length_le (cs : List Char) : (pyStrip cs).length ≤ cs.length := by
  unfold pyStrip
  calc ((cs.dropWhile isPyWhitespace).reverse.dropWhile isPyWhitespace).reverse.length
      = ((cs.dropWhile isPyWhitespace).reverse.dropWhile isPyWhitespace).length := by
        rw [List.length_reverse]
    _ ≤ (cs.dropWhile isPyWhitespace).reverse.length := length_dropWhile_le _ _
    _ = (cs.dropWhile isPyWhitespace).length := by rw [List.length_reverse]
    _ ≤ cs.length := length_dropWhile_le _ _

/-- The dollar-anchor adjustment never lengthens the subject. -/
theorem reDollarDrop_length_le (cs : List Char) : (reDollarDrop cs).length ≤ cs.length := by
  unfold reDollarDrop
  split
  · rw [List.length_dropLast]; omega
  · exact Nat.le_refl _

/-- A captured group is no longer than the text after the opening marker. -/
theorem matchFenceTail_some_length (tail b : List Char) (h : matchFenceTail tail = some b) :
    b.length ≤ tail.length := by
  unfold matchFenceTail at h
  split at h
  · injection h with h
    subst h
    rw [List.length_take]
    omega
  · cases h

/-- A captured group is no longer than the whole subject. -/
theorem matchFenceLang_some_length (cs b : List Char) (h : matchFenceLang cs = some b) :
    b.length ≤ cs.length := by
  unfold matchFenceLang at h
  split at h
  · have h1 : b.length ≤ (((reDollarDrop cs).drop 3).dropWhile isLangChar).tail.length :=
      matchFenceTail_some_length _ _ h
    have h2 : (((reDollarDrop cs).drop 3).dropWhile isLangChar).tail.length =
        (((reDollarDrop cs).drop 3).dropWhile isLangChar).length - 1 := List.length_tail _
    have h3 : (((reDollarDrop cs).drop 3).dropWhile isLangChar).length ≤
        ((reDollarDrop cs).drop 3).length := length_dropWhile_le _ _
    have h4 : ((reDollarDrop cs).drop 3).length = (reDollarDrop cs).length - 3 :=
      List.length_drop _ _
    have h5 : (reDollarDrop cs).length ≤ cs.length := reDollarDrop_length_le cs
    omega
  · cases h

/-- The tag character class contains no newline. -/
theorem isLangChar_newline : isLangChar '\n' = false := by decide

/-- The no-tag pattern only matches where the tagged pattern matches with an
empty tag, with the same captured group. -/
theorem matchFenceNoLang_sub (cs b : List Char) (h : matchFenceNoLang cs = some b) :
    matchFenceLang cs = some b := by
  unfold matchFenceNoLang at h
  split at h
  case isTrue hp =>
    obtain ⟨r, hr⟩ := List.isPrefixOf_iff_prefix.mp hp
    have hc : reDollarDrop cs = fence3 ++ '\n' :: r := by
      rw [← hr]; simp
    have hdrop3 : (reDollarDrop cs).drop 3 = '\n' :: r := by
      rw [hc, show (3 : Nat) = fence3.length from rfl, List.drop_left]
    have hdrop4 : (reDollarDrop cs).drop 4 = r := by
      rw [← hr, show (4 : Nat) = (fence3 ++ ['\n']).length from rfl, List.drop_left]
    have hpre : fence3.isPrefixOf (reDollarDrop cs) = true := by
      rw [List.isPrefixOf_iff_prefix, hc]
      exact ⟨'\n' :: r, rfl⟩
    have hdw : List.dropWhile isLangChar ('\n' :: r) = '\n' :: r :=
      List.dropWhile_cons_of_neg (by simp [isLangChar_newline])
    rw [hdrop4] at h
    unfold matchFenceLang
    rw [hdrop3, hdw, if_pos ⟨hpre, rfl⟩]
    exact h
  case isFalse => cases h

/-- Whatever the head of a dropWhile result is, it fails the predicate. -/
theorem dropWhile_head?_false {α : Type} (p : α → Bool) (l : List α) (c : α)
    (h : (l.dropWhile p).head? = some c) : p c = false := by
  induction l with
  | nil => cases h
  | cons a l ih =>
    rw [List.dropWhile_cons] at h
    by_cases hp : p a = true
    · rw [if_pos hp] at h; exact ih h
    · rw [if_neg hp] at h
      injection h with h
      subst h
      exact Bool.not_eq_true _ |>.mp hp

/-- The stripped text never ends in whitespace. -/
theorem pyStrip_getLast?_false (cs : List Char) (c : Char)
    (h : (pyStrip cs).getLast? = some c) : isPyWhitespace c = false := by
  unfold pyStrip at h
  rw [List.getLast?_reverse] at h
  exact dropWhile_head?_false _ _ _ h

/-- Stripping absorbs a leading whitespace character. -/
theorem pyStrip_cons_ws (a : Char) (l : List Char) (h : isPyWhitespace a = true) :
    pyStrip (a :: l) = pyStrip l := by
  unfold pyStrip
  rw [List.dropWhile_cons_of_pos h]

/-- A string with no leading and no trailing whitespace strips to itself. -/
theorem pyStrip_eq_self (cs : List Char)
    (h1 : ∀ c, cs.head? = some c → isPyWhitespace c = false)
    (h2 : ∀ c, cs.getLast? = some c → isPyWhitespace c = false) :
    pyStrip cs = cs := by
  cases cs with
  | nil => rfl
  | cons a l =>
    unfold pyStrip
    have hd1 : List.dropWhile isPyWhitespace (a :: l) = a :: l :=
      List.dropWhile_cons_of_neg (by simp [h1 a rfl])
    rw [hd1]
    cases hr : (a :: l).reverse with
    | nil => exact absurd (List.reverse_eq_nil_iff.mp hr) (by simp)
    | cons b m =>
      have hb : isPyWhitespace b = false := by
        apply h2
        rw [← List.head?_reverse, hr]
        rfl
      have hd2 : List.dropWhile isPyWhitespace (b :: m) = b :: m :=
        List.dropWhile_cons_of_neg (by simp [hb])
      rw [hd2, ← hr, List.reverse_reverse]

/-- A string that strips to itself has no leading whitespace. -/
theorem pyStrip_fix_head (a : Char) (l : List Char) (h : pyStrip (a :: l) = a :: l) :
    isPyWhitespace a = false := by
  by_cases hw : isPyWhitespace a = true
  · have := pyStrip_cons_ws a l hw
    rw [this] at h
    have hlen := pyStrip_length_le l
    rw [h] at hlen
    simp at hlen
  · exact Bool.not_eq_true _ |>.mp hw

/-- Appending one newline to a trimmed string and stripping gives it back. -/
theorem pyStrip_concat_newline (cs : List Char) (h : pyStrip cs = cs) :
    pyStrip (cs ++ ['\n']) = cs := by
  cases cs with
  | nil => decide
  | cons a l =>
    have ha : isPyWhitespace a = false := pyStrip_fix_head a l h
    cases hr : (a :: l).reverse with
    | nil => exact absurd (List.reverse_eq_nil_iff.mp hr) (by simp)
    | cons b m =>
      have hb : isPyWhitespace b = false := by
        apply pyStrip_getLast?_false (a :: l)
        rw [h, ← List.head?_reverse, hr]
        rfl
      unfold pyStrip
      have hd1 : List.dropWhile isPyWhitespace (a :: (l ++ ['\n'])) = a :: (l ++ ['\n']) :=
        List.dropWhile_cons_of_neg (by simp [ha])
      rw [List.cons_append, hd1]
      have hrev : (a :: (l ++ ['\n'])).reverse = '\n' :: (a :: l).reverse := by
        rw [← List.cons_append, List.reverse_append]
        rfl
      rw [hrev]
      have hd2 : List.dropWhile isPyWhitespace ('\n' :: (a :: l).reverse) =
          List.dropWhile isPyWhitespace ((a :: l).reverse) :=
        List.dropWhile_cons_of_pos (by decide)
      rw [hd2, hr]
      have hd3 : List.dropWhile isPyWhitespace (b :: m) = b :: m :=
        List.dropWhile_cons_of_neg (by simp [hb])
      rw [hd3, ← hr, List.reverse_reverse]

/-- Dropping while a predicate holds skips over a block that satisfies it. -/
theorem dropWhile_append_of_all {α : Type} (p : α → Bool) (l₁ l₂ : List α)
    (h : ∀ c ∈ l₁, p c = true) : (l₁ ++ l₂).dropWhile p = l₂.dropWhile p := by
  induction l₁ with
  | nil => rfl
  | cons a t ih =>
    rw [List.cons_append, List.dropWhile_cons_of_pos (h a (by simp))]
    exact ih (fun c hc => h c (by simp [hc]))

/-- When the stripped text does not open with a fence marker, the input comes
back unchanged. -/
theorem strip_of_not_prefix (t : List Char) (h : fence3.isPrefixOf (pyStrip t) = false) :
    strip_markdown_code_fences t = t := by
  unfold strip_markdown_code_fences
  split
  · rfl
  · simp [h]

/-- When the tagged pattern finds no match, neither pattern does, and the
input comes back unchanged. -/
theorem strip_no_match_unchanged (t : List Char)
    (h : matchFenceLang (pyStrip t) = Option.none) :
    strip_markdown_code_fences t = t := by
  by_cases hp : fence3.isPrefixOf (pyStrip t) = true
  · have hn : matchFenceNoLang (pyStrip t) = Option.none := by
      cases hn : matchFenceNoLang (pyStrip t) with
      | none => rfl
      | some b => rw [matchFenceNoLang_sub _ _ hn] at h; cases h
    unfold strip_markdown_code_fences
    split
    · rfl
    · simp [hp, h, hn]
  · have hp' : fence3.isPrefixOf (pyStrip t) = false := (Bool.not_eq_true _).mp hp
    exact strip_of_not_prefix t hp'

/-- When the tagged pattern matches, the result is the trimmed group. -/
theorem strip_of_lang_some (t b : List Char) (he : t.isEmpty = false)
    (hp : fence3.isPrefixOf (pyStrip t) = true)
    (hm : matchFenceLang (pyStrip t) = some b) :
    strip_markdown_code_fences t = pyStrip b := by
  unfold strip_markdown_code_fences
  simp [he, hp, hm]

/-- The closing-marker part of the pattern on a wrapped body: the group is the
body together with the following newline. -/
theorem matchFenceTail_wrap (body : List Char) :
    matchFenceTail (body ++ '\n' :: fence3) = some (body ++ ['\n']) := by
  have hlen : (body ++ '\n' :: fence3).length = body.length + 4 := by simp [fence3]
  have hsplit : body ++ '\n' :: fence3 = (body ++ ['\n']) ++ fence3 := by simp
  have hd : (body ++ '\n' :: fence3).drop ((body ++ '\n' :: fence3).length - 3) = fence3 := by
    rw [hlen, show body.length + 4 - 3 = (body ++ ['\n']).length from by simp, hsplit,
      List.drop_left]
  have ht : (body ++ '\n' :: fence3).take ((body ++ '\n' :: fence3).length - 3) =
      body ++ ['\n'] := by
    rw [hlen, show body.length + 4 - 3 = (body ++ ['\n']).length from by simp, hsplit,
      List.take_left]
  have h4 : 4 ≤ (body ++ '\n' :: fence3).length := by rw [hlen]; omega
  unfold matchFenceTail
  rw [if_pos ⟨h4, hd⟩, ht]

/-- A wrapped body ends with a backtick. -/
theorem wrap_getLast (body : List Char) :
    (fence3 ++ '\n' :: (body ++ '\n' :: fence3)).getLast? = some '`' := by
  rw [show fence3 ++ '\n' :: (body ++ '\n' :: fence3) =
      (fence3 ++ '\n' :: (body ++ ['\n', '`', '`'])) ++ ['`'] from by simp [fence3],
    List.getLast?_concat]

/-- A wrapped body is already stripped (it opens and closes with backticks). -/
theorem wrap_pyStrip (body : List Char) :
    pyStrip (fence3 ++ '\n' :: (body ++ '\n' :: fence3)) =
      fence3 ++ '\n' :: (body ++ '\n' :: fence3) := by
  apply pyStrip_eq_self
  · intro c hc
    have hh : (fence3 ++ '\n' :: (body ++ '\n' :: fence3)).head? = some '`' := by
      simp [fence3]
    rw [hh] at hc
    injection hc with hc
    rw [← hc]
    decide
  · intro c hc
    rw [wrap_getLast] at hc
    injection hc with hc
    rw [← hc]
    decide

/-- The tagged pattern on a wrapped body: it matches with an empty tag and
captures the body together with the newline before the closing marker. -/
theorem matchFenceLang_wrap (body : List Char) :
    matchFenceLang (fence3 ++ '\n' :: (body ++ '\n' :: fence3)) = some (body ++ ['\n']) := by
  have hdd : reDollarDrop (fence3 ++ '\n' :: (body ++ '\n' :: fence3)) =
      fence3 ++ '\n' :: (body ++ '\n' :: fence3) := by
    unfold reDollarDrop
    rw [wrap_getLast]
    exact if_neg (by decide)
  have hdrop3 : (fence3 ++ '\n' :: (body ++ '\n' :: fence3)).drop 3 =
      '\n' :: (body ++ '\n' :: fence3) := by
    rw [show (3 : Nat) = fence3.length from rfl, List.drop_left]
  have hpre : fence3.isPrefixOf (fence3 ++ '\n' :: (body ++ '\n' :: fence3)) = true := by
    rw [List.isPrefixOf_iff_prefix]
    exact ⟨'\n' :: (body ++ '\n' :: fence3), rfl⟩
  have hdw : List.dropWhile isLangChar ('\n' :: (body ++ '\n' :: fence3)) =
      '\n' :: (body ++ '\n' :: fence3) :=
    List.dropWhile_cons_of_neg (by simp [isLangChar_newline])
  unfold matchFenceLang
  rw [hdd, hdrop3, hdw, if_pos ⟨hpre, rfl⟩]
  exact matchFenceTail_wrap body

/-- Removing bindings of one key does not change lookups of another key. -/
theorem lookupVal_eraseKey (k key : List Char) (hne : key ≠ k) :
    ∀ entries : EntryList, lookupVal (eraseKey k entries) key = lookupVal entries key
  | .nil => rfl
  | .cons k' v rest => by
    show lookupVal (if k' = k then eraseKey k rest else .cons k' v (eraseKey k rest)) key =
      if k' = key then some v else lookupVal rest key
    by_cases hk : k' = k
    · rw [if_pos hk, lookupVal_eraseKey k key hne rest]
      have hne2 : k' ≠ key := by rw [hk]; exact fun hh => hne hh.symm
      rw [if_neg hne2]
    · rw [if_neg hk]
      show (if k' = key then some v else lookupVal (eraseKey k rest) key) =
        if k' = key then some v else lookupVal rest key
      rw [lookupVal_eraseKey k key hne rest]

/-- The dict `content` shortcut of `_extract_text` fires exactly on the first
binding of the key. -/
theorem contentStep_lookup : ∀ (entries : EntryList) (v : Value),
    lookupVal entries kContent = some v → contentStep entries = some (extract_text v)
  | .cons k v' rest, v, h => by
    have h2 : (if k = kContent then some v' else lookupVal rest kContent) = some v := h
    show (if k = kContent then some (extract_text v') else contentStep rest) =
      some (extract_text v)
    by_cases hk : k = kContent
    · rw [if_pos hk] at h2
      injection h2 with h2
      rw [if_pos hk, h2]
    · rw [if_neg hk] at h2
      rw [if_neg hk]
      exact contentStep_lookup rest v h2

/-
### Claims
-/

/-- C1: the claim states that `normalize_result` never propagates an
exception.  The code violates it: `hasattr(result, "content")` on line 66 is
not inside any `try` and re-raises any non-`AttributeError` coming from a
`content` property, and the unguarded `model_dump` retry in `_extract_text`
(line 50, inside an `except TypeError` handler) likewise propagates whatever
the second call raises.  This theorem evaluates the embedding at two such
malformed objects and shows the exception reaching the caller. -/
theorem normalize_result_propagates_exceptions :
    normalize_result (.obj (.cons "content" (.err .other) .nil) .noAttr (.ok [])) =
      .error .other ∧
    normalize_result (.obj .nil (.typeErrThen (.err .other)) (.ok [])) =
      .error .other := by
  exact ⟨rfl, rfl⟩

/-- C2 counterexample: a dict carrying both a "content" key (value `"A"`) and
a "choices" key (a one-element sequence extracting to `"B"`) is extracted
through the choices case, not the content case, so the claim's predicted
result `"A"` is wrong. -/
theorem dict_content_choices_cex :
    normalize_result (.dict (.cons kContent (.str ['A'])
        (.cons kChoices (.vlist (.cons (.str ['B']) .nil)) .nil))) = .ok ['B'] ∧
    normalize_result (.dict (.cons kContent (.str ['A'])
        (.cons kChoices (.vlist (.cons (.str ['B']) .nil)) .nil))) ≠ .ok ['A'] := by
  exact ⟨rfl, by decide⟩

/-- C2 amended: at the top level of `normalize_result`, a dict whose "choices"
key holds a sequence is handled by the mapping-with-choices case and its
"content" key is ignored (removing every "content" binding leaves the result
unchanged); the mapping-with-content priority applies only inside the
recursive `_extract_text`, where a dict with a "content" key delegates to that
value. -/
theorem dict_choices_beats_content :
    (∀ (entries : EntryList) (items : ValueList),
      lookupVal entries kChoices = some (.vlist items) →
      normalize_result (.dict entries) =
        normalize_result (.dict (eraseKey kContent entries))) ∧
    (∀ (entries : EntryList) (v : Value),
      lookupVal entries kContent = some v →
      extract_text (.dict entries) = extract_text v) := by
  constructor
  · intro entries items h
    have hch : lookupVal (eraseKey kContent entries) kChoices = some (.vlist items) := by
      rw [lookupVal_eraseKey kContent kChoices (by decide) entries]
      exact h
    unfold normalize_result
    simp only [normalizeCore]
    rw [h, hch]
  · intro entries v h
    show (match contentStep entries with
          | some r => r
          | Option.none =>
            match extractEntries entries with
            | .ok pairs => .ok (jsonDumps pairs)
            | .error e => .error e) = extract_text v
    rw [contentStep_lookup entries v h]

/-- C2 amended, witnessed at the counterexample dict and at a one-entry
content dict. -/
theorem dict_choices_beats_content_witness :
    normalize_result (.dict (.cons kContent (.str ['A'])
        (.cons kChoices (.vlist (.cons (.str ['B']) .nil)) .nil))) =
      normalize_result (.dict (eraseKey kContent (.cons kContent (.str ['A'])
        (.cons kChoices (.vlist (.cons (.str ['B']) .nil)) .nil)))) ∧
    extract_text (.dict (.cons kContent (.str ['A']) .nil)) = extract_text (.str ['A']) := by
  exact ⟨dict_choices_beats_content.1 _ (.cons (.str ['B']) .nil) rfl,
    dict_choices_beats_content.2 _ (.str ['A']) rfl⟩

/-- C3: a plain string input passes through the dispatch verbatim and is then
fence-stripped exactly once. -/
theorem normalize_result_on_str (s : List Char) :
    normalize_result (.str s) = .ok (strip_markdown_code_fences s) := rfl

/-- C4 counterexample: stripping the doubly wrapped text
` ```\n```json\nhello\n```\n``` ` yields ` ```json\nhello\n``` `, which is
itself a complete fenced block and is stripped again by a second application,
so fence stripping is not idempotent on every string. -/
theorem strip_fences_not_idempotent_cex :
    strip_markdown_code_fences
        (strip_markdown_code_fences "```\n```json\nhello\n```\n```".data) ≠
      strip_markdown_code_fences "```\n```json\nhello\n```\n```".data := by decide

/-- C4 amended: fence stripping is idempotent on every string whose first
stripping either returns the input unchanged or produces a result that does
not itself open (after trimming) with a fence marker; only a stripped result
that is again a complete fenced block is stripped twice. -/
theorem strip_fences_idempotent_cond (x : List Char)
    (h : strip_markdown_code_fences x = x ∨
      fence3.isPrefixOf (pyStrip (strip_markdown_code_fences x)) = false) :
    strip_markdown_code_fences (strip_markdown_code_fences x) =
      strip_markdown_code_fences x := by
  cases h with
  | inl h => rw [h]; exact h
  | inr h => exact strip_of_not_prefix _ h

/-- C4 amended, witnessed on plain text. -/
theorem strip_fences_idempotent_cond_witness :
    strip_markdown_code_fences (strip_markdown_code_fences ['h', 'i']) =
      strip_markdown_code_fences ['h', 'i'] :=
  strip_fences_idempotent_cond ['h', 'i'] (Or.inl (by decide))

/-- C5 counterexample: the body `" a "` contains no triple backtick, yet the
round trip returns the trimmed `"a"`, because the captured group is stripped
of whitespace before being returned. -/
theorem strip_fences_roundtrip_cex :
    ¬ fence3 <:+: [' ', 'a', ' '] ∧
    strip_markdown_code_fences (fence3 ++ '\n' :: ([' ', 'a', ' '] ++ '\n' :: fence3)) ≠
      [' ', 'a', ' '] := by decide

/-- C5 amended: for every body with no triple-backtick substring that neither
starts nor ends with whitespace (`body.strip() == body`), stripping
` ``` + "\n" + body + "\n" + ``` ` returns the body. -/
theorem strip_fences_roundtrip_trimmed (body : List Char)
    (_h1 : ¬ fence3 <:+: body) (h2 : pyStrip body = body) :
    strip_markdown_code_fences (fence3 ++ '\n' :: (body ++ '\n' :: fence3)) = body := by
  have hne : (fence3 ++ '\n' :: (body ++ '\n' :: fence3)).isEmpty = false := by
    simp [fence3]
  have hps := wrap_pyStrip body
  have hpre : fence3.isPrefixOf (pyStrip (fence3 ++ '\n' :: (body ++ '\n' :: fence3))) =
      true := by
    rw [hps, List.isPrefixOf_iff_prefix]
    exact ⟨'\n' :: (body ++ '\n' :: fence3), rfl⟩
  have hm : matchFenceLang (pyStrip (fence3 ++ '\n' :: (body ++ '\n' :: fence3))) =
      some (body ++ ['\n']) := by
    rw [hps]
    exact matchFenceLang_wrap body
  rw [strip_of_lang_some _ _ hne hpre hm]
  exact pyStrip_concat_newline body h2

/-- C5 amended, witnessed at body `"hello"`. -/
theorem strip_fences_roundtrip_trimmed_witness :
    strip_markdown_code_fences (fence3 ++ '\n' :: ("hello".data ++ '\n' :: fence3)) =
      "hello".data :=
  strip_fences_roundtrip_trimmed "hello".data (by decide) (by decide)

/-- C6: whenever the trimmed text is not a complete whole-text fence — the
fence pattern finds no match on it (in particular when it does not open with a
marker, has a leading prefix before the fence, or an unclosed fence) — the
original untrimmed input is returned unchanged.  The no-tag pattern cannot
rescue a failed tagged match, since it only matches where the tagged pattern
does. -/
theorem strip_fences_unchanged_without_whole_fence (t : List Char)
    (h : matchFenceLang (pyStrip t) = Option.none) :
    strip_markdown_code_fences t = t :=
  strip_no_match_unchanged t h

/-- C6, witnessed on a text with a leading prefix before its fence and on an
unclosed fence. -/
theorem strip_fences_unchanged_without_whole_fence_witness :
    strip_markdown_code_fences "some text\n```json\nhi\n```".data =
      "some text\n```json\nhi\n```".data ∧
    strip_markdown_code_fences "```json\nhi".data = "```json\nhi".data :=
  ⟨strip_fences_unchanged_without_whole_fence "some text\n```json\nhi\n```".data (by decide),
   strip_fences_unchanged_without_whole_fence "```json\nhi".data (by decide)⟩

/-- C7: per choice, a `message` attribute wins over a `text` attribute; with
no `message` the `text` attribute is used; with neither the choice itself is
extracted; analogously for dict choices by key; the per-choice results are
joined with a newline after dropping empty ones; and the concrete object whose
choices bear texts "a" and "b" normalizes to "a\nb". -/
theorem choices_message_over_text :
    (∀ (attrs : AttrList) (dump : DumpSpec) (rep : Except PyErr (List Char)) (m : Value),
      lookupAttr attrs "message" = some (.ok m) →
      choiceExtractAttr (.obj attrs dump rep) = extract_text m) ∧
    (∀ (attrs : AttrList) (dump : DumpSpec) (rep : Except PyErr (List Char)) (t : Value),
      lookupAttr attrs "message" = Option.none →
      lookupAttr attrs "text" = some (.ok t) →
      choiceExtractAttr (.obj attrs dump rep) = extract_text t) ∧
    (∀ (attrs : AttrList) (dump : DumpSpec) (rep : Except PyErr (List Char)),
      lookupAttr attrs "message" = Option.none →
      lookupAttr attrs "text" = Option.none →
      choiceExtractAttr (.obj attrs dump rep) = extract_text (.obj attrs dump rep)) ∧
    (∀ (d : EntryList) (m : Value),
      lookupVal d kMessage = some m →
      dictChoiceItem (.dict d) = extract_text m) ∧
    (∀ (d : EntryList) (t : Value),
      lookupVal d kMessage = Option.none →
      lookupVal d kText = some t →
      dictChoiceItem (.dict d) = extract_text t) ∧
    (∀ (cs : ValueList) (texts : List (List Char)),
      extractChoicesList cs = .ok texts →
      objChoicesTry (.vlist cs) = .ok (joinNonEmpty texts)) ∧
    normalize_result (.obj (.cons "choices" (.ok (.vlist
        (.cons (.obj (.cons "text" (.ok (.str ['a'])) .nil) .noAttr (.ok []))
        (.cons (.obj (.cons "text" (.ok (.str ['b'])) .nil) .noAttr (.ok [])) .nil))))
        .nil) .noAttr (.ok [])) = .ok ['a', '\n', 'b'] := by
  refine ⟨?_, ?_, ?_, ?_, ?_, ?_, by decide⟩
  · intro attrs dump rep m h
    simp [choiceExtractAttr, h]
  · intro attrs dump rep t h1 h2
    simp [choiceExtractAttr, h1, h2]
  · intro attrs dump rep h1 h2
    simp [choiceExtractAttr, h1, h2]
  · intro d m h
    simp [dictChoiceItem, h]
  · intro d t h1 h2
    simp [dictChoiceItem, h1, h2]
  · intro cs texts h
    simp [objChoicesTry, h]

/-- C7, witnessed at a choice carrying both fields, a text-only choice, and a
dict choice carrying both keys. -/
theorem choices_message_over_text_witness :
    choiceExtractAttr (.obj (.cons "message" (.ok (.str ['m']))
        (.cons "text" (.ok (.str ['t'])) .nil)) .noAttr (.ok [])) =
      extract_text (.str ['m']) ∧
    choiceExtractAttr (.obj (.cons "text" (.ok (.str ['t'])) .nil) .noAttr (.ok [])) =
      extract_text (.str ['t']) ∧
    dictChoiceItem (.dict (.cons kMessage (.str ['m'])
        (.cons kText (.str ['t']) .nil))) = extract_text (.str ['m']) :=
  ⟨choices_message_over_text.1 _ _ _ _ rfl,
   choices_message_over_text.2.1 _ _ _ _ rfl rfl,
   choices_message_over_text.2.2.2.1 _ _ rfl⟩

/-- C8: fence stripping happens exactly once, at the top level, after the
recursive extraction (which itself never strips): `normalize_result` is the
dispatch composed with one `strip_markdown_code_fences`, and an interior
fenced block inside a joined list result survives verbatim in the output. -/
theorem fence_stripping_once_at_top_level :
    (∀ (r : Value) (out : List Char), normalizeCore r = .ok out →
      normalize_result r = .ok (strip_markdown_code_fences out)) ∧
    normalize_result (.vlist (.cons (.str "```\na\n```".data)
        (.cons (.str ['b']) .nil))) = .ok "```\na\n```\nb".data := by
  constructor
  · intro r out h
    unfold normalize_result
    rw [h]
  · decide

/-- C8, witnessed at a plain string input. -/
theorem fence_stripping_once_at_top_level_witness :
    normalize_result (.str ['x']) = .ok (strip_markdown_code_fences ['x']) :=
  fence_stripping_once_at_top_level.1 (.str ['x']) ['x'] rfl

/-- C9: the fence stripper never lengthens its input — the result is either
the input unchanged or the whitespace-trimmed captured group of its fence, so
its length is at most the input's length. -/
theorem strip_fences_never_lengthens (t : List Char) :
    (strip_markdown_code_fences t).length ≤ t.length ∧
    (strip_markdown_code_fences t = t ∨
      ∃ b, matchFenceLang (pyStrip t) = some b ∧
        strip_markdown_code_fences t = pyStrip b) := by
  cases hm : matchFenceLang (pyStrip t) with
  | none =>
    have ht := strip_no_match_unchanged t hm
    exact ⟨by rw [ht], Or.inl ht⟩
  | some b =>
    cases he : t.isEmpty with
    | true =>
      have ht : strip_markdown_code_fences t = t := by
        unfold strip_markdown_code_fences
        rw [if_pos he]
      exact ⟨by rw [ht], Or.inl ht⟩
    | false =>
      by_cases hp : fence3.isPrefixOf (pyStrip t) = true
      · have hs := strip_of_lang_some t b he hp hm
        refine ⟨?_, Or.inr ⟨b, rfl, hs⟩⟩
        rw [hs]
        calc (pyStrip b).length ≤ b.length := pyStrip_length_le b
          _ ≤ (pyStrip t).length := matchFenceLang_some_length _ _ hm
          _ ≤ t.length := pyStrip_length_le t
      · have hp' : fence3.isPrefixOf (pyStrip t) = false := (Bool.not_eq_true _).mp hp
        have ht := strip_of_not_prefix t hp'
        exact ⟨by rw [ht], Or.inl ht⟩

/-- C10: an empty-body fence — an opening marker with an optional language
tag, a newline, and an immediately following closing marker — is never
stripped, because the pattern's group needs at least one character of
content. -/
theorem empty_body_fence_unstripped (lang : List Char)
    (h : ∀ c ∈ lang, isLangChar c = true) :
    strip_markdown_code_fences (fence3 ++ lang ++ '\n' :: fence3) =
      fence3 ++ lang ++ '\n' :: fence3 := by
  have hlast : (fence3 ++ lang ++ '\n' :: fence3).getLast? = some '`' := by
    rw [show fence3 ++ lang ++ '\n' :: fence3 =
        (fence3 ++ lang ++ ['\n', '`', '`']) ++ ['`'] from by simp [fence3],
      List.getLast?_concat]
  have hps : pyStrip (fence3 ++ lang ++ '\n' :: fence3) =
      fence3 ++ lang ++ '\n' :: fence3 := by
    apply pyStrip_eq_self
    · intro c hc
      have hh : (fence3 ++ lang ++ '\n' :: fence3).head? = some '`' := by simp [fence3]
      rw [hh] at hc
      injection hc with hc
      rw [← hc]
      decide
    · intro c hc
      rw [hlast] at hc
      injection hc with hc
      rw [← hc]
      decide
  have hdd : reDollarDrop (fence3 ++ lang ++ '\n' :: fence3) =
      fence3 ++ lang ++ '\n' :: fence3 := by
    unfold reDollarDrop
    rw [hlast]
    exact if_neg (by decide)
  have hdrop3 : (fence3 ++ lang ++ '\n' :: fence3).drop 3 = lang ++ '\n' :: fence3 := by
    rw [List.append_assoc, show (3 : Nat) = fence3.length from rfl, List.drop_left]
  have hdw : (lang ++ '\n' :: fence3).dropWhile isLangChar = '\n' :: fence3 := by
    rw [dropWhile_append_of_all _ _ _ h]
    exact List.dropWhile_cons_of_neg (by simp [isLangChar_newline])
  have hml : matchFenceLang (fence3 ++ lang ++ '\n' :: fence3) = Option.none := by
    unfold matchFenceLang
    rw [hdd, hdrop3, hdw]
    split
    · show matchFenceTail fence3 = Option.none
      decide
    · rfl
  have hml' : matchFenceLang (pyStrip (fence3 ++ lang ++ '\n' :: fence3)) = Option.none := by
    rw [hps]
    exact hml
  exact strip_no_match_unchanged _ hml'

/-- C10, witnessed at the "json"-tagged empty fence and the untagged empty
fence. -/
theorem empty_body_fence_unstripped_witness :
    strip_markdown_code_fences (fence3 ++ "json".data ++ '\n' :: fence3) =
      fence3 ++ "json".data ++ '\n' :: fence3 ∧
    strip_markdown_code_fences (fence3 ++ [] ++ '\n' :: fence3) =
      fence3 ++ [] ++ '\n' :: fence3 :=
  ⟨empty_body_fence_unstripped "json".data (by decide),
   empty_body_fence_unstripped [] (by decide)⟩
